import Mathlib

/-!
Formal model of `promcurl.py`, an interactive command-line client for
Prometheus.  The script fetches the list of metric names, arms readline
prefix completion over that list, reads one query, executes it and renders
the results as a table.

Modelling conventions, chosen once for the whole file:
* Python dicts are association lists (`List (String × α)`); lookup returns
  the first binding, which coincides with dict semantics because dict keys
  are unique.
* A raised Python exception is `Except.error` carrying a `PyErr` naming the
  exception class; normal return is `Except.ok`.
* JSON values decoded by `response.json()` are the inductive `JsonV`; a
  response body that is not valid JSON is `Body.invalid`.
* Python string comparison and `str.startswith` are codepoint-wise
  operations on `String.data`, mirroring CPython semantics.
* `sorted(...)` is modelled by `List.insertionSort` over the codepoint
  order `pyStrLe`; only sortedness and permutation matter because the
  sorted inputs here are duplicate-free.
-/

namespace PromCurl

/-- Python exception classes the script can raise. -/
inductive PyErr where
  | jsonDecodeError : PyErr
  | keyError : String → PyErr
  | typeError : PyErr
  | valueError : PyErr
  | indexError : PyErr
deriving DecidableEq

/-- JSON values as produced by `response.json()`. -/
inductive JsonV where
  | str : String → JsonV
  | num : Int → JsonV
  | arr : List JsonV → JsonV
  | obj : List (String × JsonV) → JsonV

/-- An HTTP response body: either unparseable or a decoded JSON value. -/
inductive Body where
  | invalid : Body
  | json : JsonV → Body

/-- An HTTP response as seen by `requests.get`: a status code and a body.
The script never inspects the status code. -/
structure HttpResponse where
  status : Nat
  body : Body

/-- Python dict lookup (`d[k]` / `d.get(k)` success case): first binding
for the key, if any. -/
def dictGet {α : Type} : List (String × α) → String → Option α
  | [], _ => none
  | (k, v) :: rest, key => if k = key then some v else dictGet rest key

/-- The `response.json()` call: raises `json.JSONDecodeError` when the body
is not valid JSON. -/
def jsonParse : Body → Except PyErr JsonV
  | Body.invalid => Except.error PyErr.jsonDecodeError
  | Body.json v => Except.ok v

/-- Python subscription `data[k]` on a decoded JSON value: `KeyError` when
the key is missing from the object, `TypeError` when the value is not an
object (e.g. string index into a list or a string). -/
def getItem (v : JsonV) (k : String) : Except PyErr JsonV :=
  match v with
  | JsonV.obj o =>
    match dictGet o k with
    | some x => Except.ok x
    | none => Except.error (PyErr.keyError k)
  | _ => Except.error PyErr.typeError

/-- `get_metrics` of `promcurl.py`: GET `<base>/label/__name__/values`,
parse the JSON body and return `data['data']`.  The HTTP status code is
never consulted. -/
def get_metrics (resp : HttpResponse) : Except PyErr JsonV := do
  let data ← jsonParse resp.body
  getItem data "data"

/-- `query_prometheus` of `promcurl.py`: GET `<base>/query` with the query
parameter, parse the JSON body and return `data['data']['result']`.  The
query string only selects the request; the decoding never looks at it. -/
def query_prometheus (_query : String) (resp : HttpResponse) : Except PyErr JsonV := do
  let data ← jsonParse resp.body
  let d ← getItem data "data"
  getItem d "result"

/-- Python `m.startswith(t)`: `t`'s codepoints are an initial segment of
`m`'s codepoints. -/
def pyStartsWith (m t : String) : Bool :=
  t.data.isPrefixOf m.data

/-- The list comprehension of the completer lambda:
`[metric for metric in metrics if metric.startswith(text)]`. -/
def completions (metrics : List String) (t : String) : List String :=
  metrics.filter (fun m => pyStartsWith m t)

/-- The completer lambda installed by `readline.set_completer`:
`lambda text, state: [m for m in metrics if m.startswith(text)][state]`.
Subscripting the match list beyond its length raises `IndexError`. -/
def completer (metrics : List String) (t : String) (state : Nat) : Except PyErr String :=
  match (completions metrics t)[state]? with
  | some m => Except.ok m
  | none => Except.error PyErr.indexError

/-- CPython string comparison, codepoint-lexicographic on the char lists. -/
def lexLe : List Char → List Char → Bool
  | [], _ => true
  | _ :: _, [] => false
  | c :: cs, d :: ds =>
    if c < d then true
    else if d < c then false
    else lexLe cs ds

/-- Python `a <= b` on strings. -/
def pyStrLe (a b : String) : Bool :=
  lexLe a.data b.data

/-- Python `sorted(...)` on strings: a sort with respect to the codepoint
order. -/
def pySorted (l : List String) : List String :=
  List.insertionSort (fun a b => pyStrLe a b = true) l

/-- One item of `data['data']['result']`: the `metric` label dict and the
`value` pair.  Only the second (string) component of `value` is ever used;
the first (the timestamp) is carried as a raw JSON value. -/
structure ResultRecord where
  metric : List (String × String)
  value : JsonV × String

/-- All label keys of all records, with repetitions, in order:
the multiset underlying `set().union(*[result['metric'].keys() ...])`. -/
def allLabelKeys (results : List ResultRecord) : List String :=
  (results.map (fun r => r.metric.map Prod.fst)).flatten

/-- `sorted(set().union(*[result['metric'].keys() for result in results]))`:
the distinct label keys in codepoint order. -/
def sortedKeyUnion (results : List ResultRecord) : List String :=
  pySorted (allLabelKeys results).dedup

/-- Header computation of `display_table` (lines 27–29):
`headers = ['Metric'] + sorted(...)`, then `headers.remove('__name__')`,
then `headers.append('Value')`.  `list.remove` raises `ValueError` when the
element is absent, which the membership test models; `List.erase` removes
the first occurrence exactly as `list.remove` does. -/
def headersOf (results : List ResultRecord) : Except PyErr (List String) :=
  if "__name__" ∈ "Metric" :: sortedKeyUnion results
  then Except.ok (("Metric" :: sortedKeyUnion results).erase "__name__" ++ ["Value"])
  else Except.error PyErr.valueError

/-- Row construction of `display_table` (lines 32–37) for one record, given
the label columns `headers[1:-1]`: a cell per label via `.get(label, '')`,
the sample value `result['value'][1]` appended, and
`result['metric']['__name__']` (a `KeyError` when absent) inserted first. -/
def rowOf (labelCols : List String) (r : ResultRecord) : Except PyErr (List String) :=
  match dictGet r.metric "__name__" with
  | some name => Except.ok (name :: labelCols.map (fun l => (dictGet r.metric l).getD "") ++ [r.value.2])
  | none => Except.error (PyErr.keyError "__name__")

/-- `display_table` of `promcurl.py` (lines 26–39), up to the observable
content handed to `tabulate`: the header list and the row lists.  The grid
rendering of `tabulate` is a function of exactly this pair, so equality of
the pair is equality of the printed table. -/
def display_table (results : List ResultRecord) : Except PyErr (List String × List (List String)) := do
  let headers ← headersOf results
  let rows ← results.mapM (rowOf (headers.drop 1).dropLast)
  pure (headers, rows)

/-- Typed view of a label dict `{<label>: <string>, ...}`: every label
value must be a JSON string. -/
def decodeLabels : List (String × JsonV) → Except PyErr (List (String × String))
  | [] => Except.ok []
  | (k, JsonV.str v) :: rest => do
    let tail ← decodeLabels rest
    Except.ok ((k, v) :: tail)
  | (_, _) :: _ => Except.error PyErr.typeError

/-- Typed view of one result item, performing the accesses `display_table`
makes on the raw JSON: `result['metric']` must be an object of strings and
`result['value'][1]` must exist and be a string. -/
def toRecord (v : JsonV) : Except PyErr ResultRecord := do
  let mjson ← getItem v "metric"
  let labels ← match mjson with
    | JsonV.obj o => decodeLabels o
    | _ => Except.error PyErr.typeError
  let vjson ← getItem v "value"
  match vjson with
  | JsonV.arr (ts :: sv :: _) =>
    match sv with
    | JsonV.str s => Except.ok ⟨labels, (ts, s)⟩
    | _ => Except.error PyErr.typeError
  | JsonV.arr _ => Except.error PyErr.indexError
  | _ => Except.error PyErr.typeError

/-- Typed view of `data['data']['result']`: a JSON array of result items. -/
def toRecords (v : JsonV) : Except PyErr (List ResultRecord) :=
  match v with
  | JsonV.arr items => items.mapM toRecord
  | _ => Except.error PyErr.typeError

/-- The environment of one program run: the two HTTP responses the server
gives and the query line the user types. -/
structure World where
  metricsResp : HttpResponse
  query : String
  queryResp : HttpResponse

/-- The module-level driver of `promcurl.py` (lines 42–58): fetch the
metric names, arm completion (interactive only, no effect on the output),
read one query, execute it and display the table.  An uncaught exception
aborts the run with a nonzero exit status and no table; `Except.ok` is the
printed table. -/
def runProgram (w : World) : Except PyErr (List String × List (List String)) := do
  let _metrics ← get_metrics w.metricsResp
  let resultJson ← query_prometheus w.query w.queryResp
  let records ← toRecords resultJson
  display_table records

/-- Observation of a response body: the value at key `data`, when the body
is a JSON object carrying one. -/
def dataField : Body → Option JsonV
  | Body.json (JsonV.obj o) => dictGet o "data"
  | _ => none

/-- Observation of a response body: the value at path `data.result`. -/
def dataResultField (b : Body) : Option JsonV :=
  match dataField b with
  | some (JsonV.obj d) => dictGet d "result"
  | _ => none

/-- Sorted union of the distinct label keys with the reserved metric-name
key removed: the header middle section as the specification words it. -/
def specSortedLabelKeys (results : List ResultRecord) : List String :=
  pySorted ((allLabelKeys results).dedup.filter (fun k => k != "__name__"))

/-! ### Basic properties of the embedded operations -/

/-- Two strings with the same codepoints are equal. -/
theorem string_data_eq {a b : String} (h : a.data = b.data) : a = b := by
  cases a
  cases b
  simp_all

/-- The codepoint order is total. -/
theorem lexLe_total (a b : List Char) : lexLe a b = true ∨ lexLe b a = true := by
  induction a generalizing b with
  | nil => exact Or.inl rfl
  | cons c cs ih =>
    cases b with
    | nil => exact Or.inr rfl
    | cons d ds =>
      by_cases h1 : c < d
      · left
        simp [lexLe, h1]
      · by_cases h2 : d < c
        · right
          simp [lexLe, h2]
        · rcases ih ds with h | h
          · left
            simp [lexLe, h1, h2, h]
          · right
            simp [lexLe, h1, h2, h]

/-- The codepoint order is antisymmetric. -/
theorem lexLe_antisymm : ∀ {a b : List Char}, lexLe a b = true → lexLe b a = true → a = b := by
  intro a
  induction a with
  | nil =>
    intro b h1 h2
    cases b with
    | nil => rfl
    | cons d ds => simp [lexLe] at h2
  | cons c cs ih =>
    intro b h1 h2
    cases b with
    | nil => simp [lexLe] at h1
    | cons d ds =>
      by_cases hcd : c < d
      · have hdc : ¬ d < c := lt_asymm hcd
        simp [lexLe, hcd, hdc] at h2
      · by_cases hdc : d < c
        · simp [lexLe, hcd, hdc] at h1
        · have hc : c = d := le_antisymm (not_lt.mp hdc) (not_lt.mp hcd)
          subst hc
          simp [lexLe] at h1 h2
          rw [ih h1 h2]

/-- The codepoint order is transitive. -/
theorem lexLe_trans : ∀ {a b c : List Char},
    lexLe a b = true → lexLe b c = true → lexLe a c = true := by
  intro a
  induction a with
  | nil => intro b c _ _; rfl
  | cons x xs ih =>
    intro b c h1 h2
    cases b with
    | nil => simp [lexLe] at h1
    | cons y ys =>
      cases c with
      | nil => simp [lexLe] at h2
      | cons z zs =>
        by_cases hxy : x < y
        · by_cases hyz : y < z
          · simp [lexLe, lt_trans hxy hyz]
          · by_cases hzy : z < y
            · simp [lexLe, hyz, hzy] at h2
            · have : y = z := le_antisymm (not_lt.mp hzy) (not_lt.mp hyz)
              subst this
              simp [lexLe, hxy]
        · by_cases hyx : y < x
          · simp [lexLe, hxy, hyx] at h1
          · have hxyeq : x = y := le_antisymm (not_lt.mp hyx) (not_lt.mp hxy)
            subst hxyeq
            simp [lexLe] at h1
            by_cases hyz : x < z
            · simp [lexLe, hyz]
            · by_cases hzy : z < x
              · simp [lexLe, hyz, hzy] at h2
              · have : x = z := le_antisymm (not_lt.mp hzy) (not_lt.mp hyz)
                subst this
                simp [lexLe] at h2 ⊢
                exact ih h1 h2

instance : IsTotal String (fun a b => pyStrLe a b = true) :=
  ⟨fun a b => lexLe_total a.data b.data⟩

instance : IsTrans String (fun a b => pyStrLe a b = true) :=
  ⟨fun _ _ _ h1 h2 => lexLe_trans h1 h2⟩

instance : IsAntisymm String (fun a b => pyStrLe a b = true) :=
  ⟨fun _ _ h1 h2 => string_data_eq (lexLe_antisymm h1 h2)⟩

theorem pySorted_perm (l : List String) : (pySorted l).Perm l :=
  List.perm_insertionSort _ l

theorem pySorted_sorted (l : List String) :
    List.Sorted (fun a b => pyStrLe a b = true) (pySorted l) :=
  List.sorted_insertionSort _ l

/-- Two sorted lists of the same elements are equal: `sorted` of a set is
well defined. -/
theorem sorted_eq_of_perm {l1 l2 : List String} (h : l1.Perm l2)
    (s1 : List.Sorted (fun a b => pyStrLe a b = true) l1)
    (s2 : List.Sorted (fun a b => pyStrLe a b = true) l2) : l1 = l2 :=
  List.eq_of_perm_of_sorted h s1 s2

theorem dictGet_eq_none {α : Type} (m : List (String × α)) (k : String) :
    dictGet m k = none ↔ k ∉ m.map Prod.fst := by
  induction m with
  | nil => simp [dictGet]
  | cons p rest ih =>
    obtain ⟨k0, v⟩ := p
    by_cases h : k0 = k
    · subst h
      simp [dictGet]
    · simp only [dictGet, if_neg h, ih, List.map_cons, List.mem_cons]
      constructor
      · intro hn hc
        rcases hc with hc | hc
        · exact h hc.symm
        · exact hn hc
      · intro hn hc
        exact hn (Or.inr hc)

theorem dictGet_isSome {α : Type} {m : List (String × α)} {k : String} :
    (dictGet m k).isSome = true ↔ k ∈ m.map Prod.fst := by
  constructor
  · intro h
    by_contra hc
    rw [(dictGet_eq_none m k).mpr hc] at h
    simp at h
  · intro h
    cases hdg : dictGet m k with
    | some v => rfl
    | none => exact absurd h ((dictGet_eq_none m k).mp hdg)

/-- Successful `mapM` over `Except`, elementwise. -/
theorem mapM_ok_of_forall {ε α β : Type} (f : α → Except ε β) (g : α → β) :
    ∀ l : List α, (∀ a ∈ l, f a = Except.ok (g a)) → l.mapM f = Except.ok (l.map g) := by
  intro l
  induction l with
  | nil => intro _; rfl
  | cons a t ih =>
    intro h
    rw [List.mapM_cons, h a (by simp), ih (fun x hx => h x (by simp [hx]))]
    rfl

/-- When every element either succeeds or fails with the same error, `mapM`
either succeeds elementwise or fails with that error. -/
theorem mapM_ok_or_error {ε α β : Type} (f : α → Except ε β) (g : α → β) (c : ε) :
    ∀ l : List α, (∀ a ∈ l, f a = Except.ok (g a) ∨ f a = Except.error c) →
      l.mapM f = Except.ok (l.map g) ∨ l.mapM f = Except.error c := by
  intro l
  induction l with
  | nil => intro _; exact Or.inl rfl
  | cons a t ih =>
    intro h
    rw [List.mapM_cons]
    rcases h a (by simp) with ha | ha
    · rw [ha]
      rcases ih (fun x hx => h x (by simp [hx])) with ht | ht
      · rw [ht]
        exact Or.inl rfl
      · rw [ht]
        exact Or.inr rfl
    · rw [ha]
      exact Or.inr rfl

/-- A successful `mapM` over `Except` had every element succeed. -/
theorem mapM_ok_forall {ε α β : Type} (f : α → Except ε β) :
    ∀ (l : List α) (bs : List β), l.mapM f = Except.ok bs → ∀ a ∈ l, ∃ b, f a = Except.ok b := by
  intro l
  induction l with
  | nil =>
    intro bs _ a ha
    cases ha
  | cons x t ih =>
    intro bs h a ha
    rw [List.mapM_cons] at h
    cases hx : f x with
    | error e =>
      rw [hx] at h
      exact Except.noConfusion h
    | ok b =>
      rw [hx] at h
      cases ht : t.mapM f with
      | error e =>
        rw [ht] at h
        exact Except.noConfusion h
      | ok bs2 =>
        rcases List.mem_cons.mp ha with rfl | hat
        · exact ⟨b, hx⟩
        · exact ih bs2 ht a hat

theorem mem_allLabelKeys {results : List ResultRecord} {k : String} :
    k ∈ allLabelKeys results ↔ ∃ r ∈ results, k ∈ r.metric.map Prod.fst := by
  simp [allLabelKeys, List.mem_flatten]

theorem mem_sortedKeyUnion {results : List ResultRecord} {k : String} :
    k ∈ sortedKeyUnion results ↔ k ∈ allLabelKeys results := by
  unfold sortedKeyUnion
  rw [(pySorted_perm _).mem_iff]
  exact List.mem_dedup

theorem sortedKeyUnion_nodup (results : List ResultRecord) :
    (sortedKeyUnion results).Nodup :=
  (pySorted_perm _).symm.nodup (List.nodup_dedup _)

theorem sortedKeyUnion_sorted (results : List ResultRecord) :
    List.Sorted (fun a b => pyStrLe a b = true) (sortedKeyUnion results) :=
  pySorted_sorted _

/-- Removing the reserved key from the sorted key union is the same as
sorting the distinct non-reserved keys: `list.remove` after `sorted` versus
`sorted` of the filtered set. -/
theorem erase_sortedKeyUnion (results : List ResultRecord) :
    (sortedKeyUnion results).erase "__name__" = specSortedLabelKeys results := by
  refine sorted_eq_of_perm ?_ ?_ ?_
  · have p1 : ((sortedKeyUnion results).erase "__name__").Perm
        ((allLabelKeys results).dedup.erase "__name__") := (pySorted_perm _).erase _
    have p2 : (allLabelKeys results).dedup.erase "__name__"
        = (allLabelKeys results).dedup.filter (fun k => k != "__name__") :=
      (List.nodup_dedup _).erase_eq_filter _
    have p3 : (specSortedLabelKeys results).Perm
        ((allLabelKeys results).dedup.filter (fun k => k != "__name__")) := pySorted_perm _
    rw [p2] at p1
    exact p1.trans p3.symm
  · exact List.Pairwise.sublist (List.erase_sublist _ _) (sortedKeyUnion_sorted results)
  · exact pySorted_sorted _

/-- Header computation succeeds exactly as the specification describes it
whenever some record carries the reserved key. -/
theorem headersOf_eq (results : List ResultRecord)
    (hmem : "__name__" ∈ allLabelKeys results) :
    headersOf results = Except.ok ("Metric" :: specSortedLabelKeys results ++ ["Value"]) := by
  have h1 : "__name__" ∈ sortedKeyUnion results := mem_sortedKeyUnion.mpr hmem
  have h2 : "__name__" ∈ "Metric" :: sortedKeyUnion results := List.mem_cons_of_mem _ h1
  unfold headersOf
  rw [if_pos h2]
  have h3 : ("Metric" :: sortedKeyUnion results).erase "__name__"
      = "Metric" :: (sortedKeyUnion results).erase "__name__" := by
    rw [List.erase_cons_tail]
    simp
  rw [h3, erase_sortedKeyUnion]

/-- Assembling `display_table` from a successful header computation and a
successful row pass. -/
theorem display_table_mk {results : List ResultRecord} {H : List String}
    {R : List (List String)} (h1 : headersOf results = Except.ok H)
    (h2 : results.mapM (rowOf (H.drop 1).dropLast) = Except.ok R) :
    display_table results = Except.ok (H, R) := by
  unfold display_table
  rw [h1]
  show (results.mapM (rowOf (H.drop 1).dropLast) >>= fun rows => pure (H, rows))
    = Except.ok (H, R)
  rw [h2]
  rfl

/-- Assembling a failing `display_table` from a successful header
computation and a failing row pass. -/
theorem display_table_mk_error {results : List ResultRecord} {H : List String}
    {e : PyErr} (h1 : headersOf results = Except.ok H)
    (h2 : results.mapM (rowOf (H.drop 1).dropLast) = Except.error e) :
    display_table results = Except.error e := by
  unfold display_table
  rw [h1]
  show (results.mapM (rowOf (H.drop 1).dropLast) >>= fun rows => pure (H, rows))
    = Except.error e
  rw [h2]
  rfl

/-- The label columns `headers[1:-1]` are exactly the sorted non-reserved
keys. -/
theorem labelCols_eq (results : List ResultRecord) :
    ((("Metric" :: specSortedLabelKeys results ++ ["Value"]).drop 1).dropLast)
      = specSortedLabelKeys results := by
  simp

/-- Full evaluation of `display_table` under the record precondition. -/
theorem displayTable_eq (results : List ResultRecord)
    (hmem : "__name__" ∈ allLabelKeys results)
    (hall : ∀ r ∈ results, (dictGet r.metric "__name__").isSome = true) :
    display_table results = Except.ok (
      "Metric" :: specSortedLabelKeys results ++ ["Value"],
      results.map (fun r =>
        (dictGet r.metric "__name__").getD "" ::
          (specSortedLabelKeys results).map (fun l => (dictGet r.metric l).getD "")
          ++ [r.value.2])) := by
  apply display_table_mk (headersOf_eq results hmem)
  rw [labelCols_eq]
  apply mapM_ok_of_forall
  intro r hr
  obtain ⟨v, hv⟩ := Option.isSome_iff_exists.mp (hall r hr)
  simp [rowOf, hv]

/-! ### API client decode behaviour -/

/-- `get_metrics` returns the `data` field of the response body and raises
exactly when the body is not JSON or carries no such field. -/
theorem get_metrics_eq (r : HttpResponse) :
    (∃ v, get_metrics r = Except.ok v ∧ dataField r.body = some v) ∨
    (dataField r.body = none ∧ ∃ e, get_metrics r = Except.error e) := by
  obtain ⟨st, body⟩ := r
  cases body with
  | invalid => exact Or.inr ⟨rfl, PyErr.jsonDecodeError, rfl⟩
  | json j =>
    cases j with
    | str s => exact Or.inr ⟨rfl, PyErr.typeError, rfl⟩
    | num n => exact Or.inr ⟨rfl, PyErr.typeError, rfl⟩
    | arr a => exact Or.inr ⟨rfl, PyErr.typeError, rfl⟩
    | obj o =>
      have hg : get_metrics ⟨st, Body.json (JsonV.obj o)⟩
          = (match dictGet o "data" with
             | some x => Except.ok x
             | none => Except.error (PyErr.keyError "data")) := rfl
      have hf : dataField (Body.json (JsonV.obj o)) = dictGet o "data" := rfl
      cases hd : dictGet o "data" with
      | some v =>
        refine Or.inl ⟨v, ?_, ?_⟩
        · rw [hg, hd]
        · rw [hf, hd]
      | none =>
        refine Or.inr ⟨?_, PyErr.keyError "data", ?_⟩
        · rw [hf, hd]
        · rw [hg, hd]

/-- `query_prometheus` returns the `data.result` path of the response body
and raises exactly when that path is missing. -/
theorem query_prometheus_eq (q : String) (r : HttpResponse) :
    (∃ v, query_prometheus q r = Except.ok v ∧ dataResultField r.body = some v) ∨
    (dataResultField r.body = none ∧ ∃ e, query_prometheus q r = Except.error e) := by
  obtain ⟨st, body⟩ := r
  cases body with
  | invalid => exact Or.inr ⟨rfl, PyErr.jsonDecodeError, rfl⟩
  | json j =>
    cases j with
    | str s => exact Or.inr ⟨rfl, PyErr.typeError, rfl⟩
    | num n => exact Or.inr ⟨rfl, PyErr.typeError, rfl⟩
    | arr a => exact Or.inr ⟨rfl, PyErr.typeError, rfl⟩
    | obj o =>
      cases hd : dictGet o "data" with
      | none =>
        refine Or.inr ⟨?_, PyErr.keyError "data", ?_⟩
        · show (match dictGet o "data" with
                | some (JsonV.obj d) => dictGet d "result"
                | _ => none) = none
          rw [hd]
        · show ((match dictGet o "data" with
                 | some x => Except.ok x
                 | none => Except.error (PyErr.keyError "data")) >>=
                fun d => getItem d "result") = Except.error (PyErr.keyError "data")
          rw [hd]
          rfl
      | some dv =>
        cases dv with
        | obj d =>
          cases hres : dictGet d "result" with
          | some v =>
            refine Or.inl ⟨v, ?_, ?_⟩
            · show ((match dictGet o "data" with
                     | some x => Except.ok x
                     | none => Except.error (PyErr.keyError "data")) >>=
                    fun x => getItem x "result") = Except.ok v
              rw [hd]
              show (match dictGet d "result" with
                    | some x => Except.ok x
                    | none => Except.error (PyErr.keyError "result")) = Except.ok v
              rw [hres]
            · show (match dictGet o "data" with
                    | some (JsonV.obj dd) => dictGet dd "result"
                    | _ => none) = some v
              rw [hd]
              show dictGet d "result" = some v
              exact hres
          | none =>
            refine Or.inr ⟨?_, PyErr.keyError "result", ?_⟩
            · show (match dictGet o "data" with
                    | some (JsonV.obj dd) => dictGet dd "result"
                    | _ => none) = none
              rw [hd]
              show dictGet d "result" = none
              exact hres
            · show ((match dictGet o "data" with
                     | some x => Except.ok x
                     | none => Except.error (PyErr.keyError "data")) >>=
                    fun x => getItem x "result") = Except.error (PyErr.keyError "result")
              rw [hd]
              show (match dictGet d "result" with
                    | some x => Except.ok x
                    | none => Except.error (PyErr.keyError "result"))
                  = Except.error (PyErr.keyError "result")
              rw [hres]
        | str s =>
          refine Or.inr ⟨?_, PyErr.typeError, ?_⟩
          · show (match dictGet o "data" with
                  | some (JsonV.obj dd) => dictGet dd "result"
                  | _ => none) = none
            rw [hd]
          · show ((match dictGet o "data" with
                   | some x => Except.ok x
                   | none => Except.error (PyErr.keyError "data")) >>=
                  fun x => getItem x "result") = Except.error PyErr.typeError
            rw [hd]
            rfl
        | num n =>
          refine Or.inr ⟨?_, PyErr.typeError, ?_⟩
          · show (match dictGet o "data" with
                  | some (JsonV.obj dd) => dictGet dd "result"
                  | _ => none) = none
            rw [hd]
          · show ((match dictGet o "data" with
                   | some x => Except.ok x
                   | none => Except.error (PyErr.keyError "data")) >>=
                  fun x => getItem x "result") = Except.error PyErr.typeError
            rw [hd]
            rfl
        | arr a =>
          refine Or.inr ⟨?_, PyErr.typeError, ?_⟩
          · show (match dictGet o "data" with
                  | some (JsonV.obj dd) => dictGet dd "result"
                  | _ => none) = none
            rw [hd]
          · show ((match dictGet o "data" with
                   | some x => Except.ok x
                   | none => Except.error (PyErr.keyError "data")) >>=
                  fun x => getItem x "result") = Except.error PyErr.typeError
            rw [hd]
            rfl

/-! ### Claim theorems -/

/-- C1: the specification requires the renderer to accept an empty result
set and print an empty two-column table, but `display_table []` raises
`ValueError`: the empty key union leaves `headers = ['Metric']`, and
`headers.remove('__name__')` fires on a list without the reserved key.
This theorem evaluates the code at the failing input. -/
theorem display_table_empty_raises :
    display_table ([] : List ResultRecord) = Except.error PyErr.valueError := rfl

/-- C2: the specification requires the completion provider to signal "no
more completions" for an index at or past the match count, but the
completer lambda subscripts the match list out of range and raises
`IndexError`; evaluated here at the spec's own example of a prefix
matching nothing and the first request (index 0). -/
theorem completer_out_of_range_raises :
    completer ["up", "up_time", "node_cpu_seconds_total"] "zzz" 0
      = Except.error PyErr.indexError := rfl

/-- C3: for a non-empty result set whose records all carry the reserved
key, the rendered headers are the metric-name column, then the
codepoint-sorted union of all label keys with the reserved key removed,
then the value column; the header count is 2 plus the number of distinct
non-reserved label keys. -/
theorem displayTable_headers_sorted_union (results : List ResultRecord)
    (hne : results ≠ [])
    (hall : ∀ r ∈ results, "__name__" ∈ r.metric.map Prod.fst) :
    (∃ rows, display_table results
        = Except.ok ("Metric" :: specSortedLabelKeys results ++ ["Value"], rows)) ∧
    ("Metric" :: specSortedLabelKeys results ++ ["Value"]).length
      = 2 + ((allLabelKeys results).dedup.filter (fun k => k != "__name__")).length := by
  obtain ⟨r0, hr0⟩ := List.exists_mem_of_ne_nil results hne
  have hmem : "__name__" ∈ allLabelKeys results :=
    mem_allLabelKeys.mpr ⟨r0, hr0, hall r0 hr0⟩
  constructor
  · exact ⟨_, displayTable_eq results hmem
      (fun r hr => dictGet_isSome.mpr (hall r hr))⟩
  · have hlen := (pySorted_perm ((allLabelKeys results).dedup.filter
      (fun k => k != "__name__"))).length_eq
    simp only [specSortedLabelKeys, List.length_cons, List.length_append,
      List.length_nil, hlen]
    omega

/-- C3 witness: a concrete one-record result set with one non-reserved
label key. -/
theorem displayTable_headers_sorted_union_witness :
    (∃ rows, display_table [⟨[("__name__", "up"), ("job", "prometheus")], (JsonV.num 0, "1")⟩]
        = Except.ok ("Metric" ::
            specSortedLabelKeys [⟨[("__name__", "up"), ("job", "prometheus")], (JsonV.num 0, "1")⟩]
            ++ ["Value"], rows)) ∧
    ("Metric" ::
        specSortedLabelKeys [⟨[("__name__", "up"), ("job", "prometheus")], (JsonV.num 0, "1")⟩]
        ++ ["Value"]).length
      = 2 + ((allLabelKeys [⟨[("__name__", "up"), ("job", "prometheus")], (JsonV.num 0, "1")⟩]).dedup.filter
          (fun k => k != "__name__")).length :=
  displayTable_headers_sorted_union
    [⟨[("__name__", "up"), ("job", "prometheus")], (JsonV.num 0, "1")⟩]
    (List.cons_ne_nil _ _)
    (by
      intro r hr
      rw [List.mem_singleton] at hr
      subst hr
      decide)

/-- C4 counterexample: the empty result set satisfies the stated record
precondition vacuously, yet `display_table` does not return a table of
zero rows there — it raises `ValueError` — so the claim as stated fails at
the empty result set. -/
theorem displayTable_empty_no_rows :
    ¬ ∃ hs, display_table ([] : List ResultRecord)
        = Except.ok (hs, ([] : List (List String))) := by
  rintro ⟨hs, h⟩
  have h0 : display_table ([] : List ResultRecord) = Except.error PyErr.valueError := rfl
  rw [h0] at h
  exact Except.noConfusion h

/-- C4 (amended to non-empty result sets): for every non-empty result set
whose records all carry the reserved key, `display_table` emits exactly
one row per record in the order received; each row is the record's
metric-name value, one cell per sorted label key (the record's value for
the key, or the empty string when absent), and the record's sample value
string last. -/
theorem displayTable_rows_per_record (results : List ResultRecord)
    (hne : results ≠ [])
    (hall : ∀ r ∈ results, ∃ v, dictGet r.metric "__name__" = some v) :
    display_table results = Except.ok (
      "Metric" :: specSortedLabelKeys results ++ ["Value"],
      results.map (fun r =>
        (dictGet r.metric "__name__").getD "" ::
          (specSortedLabelKeys results).map (fun l => (dictGet r.metric l).getD "")
          ++ [r.value.2])) := by
  obtain ⟨r0, hr0⟩ := List.exists_mem_of_ne_nil results hne
  obtain ⟨v0, hv0⟩ := hall r0 hr0
  have hmem : "__name__" ∈ allLabelKeys results := by
    refine mem_allLabelKeys.mpr ⟨r0, hr0, ?_⟩
    refine dictGet_isSome.mp ?_
    rw [hv0]
    rfl
  refine displayTable_eq results hmem (fun r hr => ?_)
  obtain ⟨v, hv⟩ := hall r hr
  rw [hv]
  rfl

/-- C4 witness: the spec's end-to-end example record, with a label absent
from no record; the row lists the metric name, the sorted label values and
the sample value string. -/
theorem displayTable_rows_per_record_witness :
    display_table
        [⟨[("__name__", "up"), ("instance", "localhost:9090"), ("job", "prometheus")],
          (JsonV.num 1700000000, "1")⟩]
      = Except.ok (["Metric", "instance", "job", "Value"],
          [["up", "localhost:9090", "prometheus", "1"]]) := by
  have h := displayTable_rows_per_record
      [⟨[("__name__", "up"), ("instance", "localhost:9090"), ("job", "prometheus")],
        (JsonV.num 1700000000, "1")⟩]
      (List.cons_ne_nil _ _)
      (by
        intro r hr
        rw [List.mem_singleton] at hr
        subst hr
        exact ⟨"up", rfl⟩)
  rw [h]
  rfl

/-- C5: within the match count, the completer returns the i-th metric name
starting with the prefix, in list order; the empty prefix matches every
metric name; on the spec's example list with prefix `"up"` it returns
`"up"` at index 0 and `"up_time"` at index 1. -/
theorem completer_returns_ith (metrics : List String) (t : String) (i : Nat)
    (h : i < (completions metrics t).length) :
    completer metrics t i = Except.ok ((completions metrics t).get ⟨i, h⟩)
    ∧ completions metrics "" = metrics
    ∧ completer ["up", "up_time", "node_cpu_seconds_total"] "up" 0 = Except.ok "up"
    ∧ completer ["up", "up_time", "node_cpu_seconds_total"] "up" 1 = Except.ok "up_time" := by
  refine ⟨?_, ?_, rfl, rfl⟩
  · unfold completer
    rw [List.getElem?_eq_getElem h]
    rfl
  · refine List.filter_eq_self.mpr ?_
    intro m _
    simp [pyStartsWith, List.isPrefixOf]

/-- C5 witness: the in-range case evaluated at the example list, prefix
`"up"` and index 1. -/
theorem completer_returns_ith_witness :
    completer ["up", "up_time", "node_cpu_seconds_total"] "up" 1 = Except.ok "up_time" := by
  have h : 1 < (completions ["up", "up_time", "node_cpu_seconds_total"] "up").length := by
    decide
  have hc := (completer_returns_ith ["up", "up_time", "node_cpu_seconds_total"] "up" 1 h).1
  rw [hc]
  rfl

/-- C6 counterexample: a fetch response carrying HTTP status 500 but a
well-shaped body.  The script never reads the status code, so the run
proceeds to the query and prints a table instead of aborting. -/
theorem runProgram_http500_renders_table :
    runProgram
        ⟨⟨500, Body.json (JsonV.obj [("data", JsonV.arr [JsonV.str "up"])])⟩,
          "up",
          ⟨200, Body.json (JsonV.obj [("data", JsonV.obj [("result",
            JsonV.arr [JsonV.obj [("metric", JsonV.obj [("__name__", JsonV.str "up")]),
              ("value", JsonV.arr [JsonV.num 1700000000, JsonV.str "1"])]])])])⟩⟩
      = Except.ok (["Metric", "Value"], [["up", "1"]]) := rfl

/-- C6 (amended: the script ignores the status code; it aborts exactly
when the fetch body is undecodable): whenever the metric-name fetch
response body is not valid JSON or carries no `data` field — the shape of
a typical error response — the run raises before rendering, so no table is
printed. -/
theorem runProgram_aborts_on_undecodable_fetch (w : World)
    (h : dataField w.metricsResp.body = none) :
    ∃ e, runProgram w = Except.error e := by
  rcases get_metrics_eq w.metricsResp with ⟨v, _, hfield⟩ | ⟨_, e, herr⟩
  · rw [h] at hfield
    exact Option.noConfusion hfield
  · refine ⟨e, ?_⟩
    unfold runProgram
    rw [herr]
    rfl

/-- C6 witness: an unparseable 500 body aborts the run. -/
theorem runProgram_aborts_on_undecodable_fetch_witness :
    ∃ e, runProgram ⟨⟨500, Body.invalid⟩, "up", ⟨200, Body.invalid⟩⟩ = Except.error e :=
  runProgram_aborts_on_undecodable_fetch
    ⟨⟨500, Body.invalid⟩, "up", ⟨200, Body.invalid⟩⟩ rfl

/-- C7: `get_metrics` returns the body's `data` value and fails exactly
when the body is not valid JSON or has no `data` field; `query_prometheus`
returns the body's `data.result` value and fails exactly when that path is
missing. -/
theorem client_decode_contract (q : String) (r : HttpResponse) :
    ((∃ v, get_metrics r = Except.ok v ∧ dataField r.body = some v) ∨
      (dataField r.body = none ∧ ∃ e, get_metrics r = Except.error e)) ∧
    ((∃ v, query_prometheus q r = Except.ok v ∧ dataResultField r.body = some v) ∨
      (dataResultField r.body = none ∧ ∃ e, query_prometheus q r = Except.error e)) :=
  ⟨get_metrics_eq r, query_prometheus_eq q r⟩

/-- Rows depend only on the label dict and the sample value string. -/
theorem rowOf_congr {cols : List String} {a b : ResultRecord}
    (h1 : a.metric = b.metric) (h2 : a.value.2 = b.value.2) :
    rowOf cols a = rowOf cols b := by
  unfold rowOf
  rw [h1, h2]

/-- C8: the rendered table depends only on each record's labels and sample
value string; two result sets equal up to the timestamps produce the same
output. -/
theorem displayTable_ignores_timestamps (results1 results2 : List ResultRecord)
    (h : List.Forall₂ (fun a b => a.metric = b.metric ∧ a.value.2 = b.value.2)
      results1 results2) :
    display_table results1 = display_table results2 := by
  have hkeys : allLabelKeys results1 = allLabelKeys results2 := by
    unfold allLabelKeys
    congr 1
    induction h with
    | nil => rfl
    | cons hab htail ih => simp only [List.map_cons, hab.1, ih]
  have hh : headersOf results1 = headersOf results2 := by
    unfold headersOf sortedKeyUnion
    rw [hkeys]
  have hmapeq : ∀ cols, results1.mapM (rowOf cols) = results2.mapM (rowOf cols) := by
    intro cols
    clear hkeys hh
    induction h with
    | nil => rfl
    | cons hab htail ih =>
      rw [List.mapM_cons, List.mapM_cons, ih, rowOf_congr hab.1 hab.2]
  cases hc : headersOf results2 with
  | error e =>
    unfold display_table
    rw [hh, hc]
    rfl
  | ok H =>
    unfold display_table
    rw [hh, hc]
    show (results1.mapM (rowOf (H.drop 1).dropLast) >>= fun rows => pure (H, rows))
      = (results2.mapM (rowOf (H.drop 1).dropLast) >>= fun rows => pure (H, rows))
    rw [hmapeq]

/-- C8 witness: two one-record result sets differing only in the
timestamp. -/
theorem displayTable_ignores_timestamps_witness :
    display_table [⟨[("__name__", "up")], (JsonV.num 1700000000, "1")⟩]
      = display_table [⟨[("__name__", "up")], (JsonV.num 1700009999, "1")⟩] :=
  displayTable_ignores_timestamps _ _
    (List.Forall₂.cons ⟨rfl, rfl⟩ List.Forall₂.nil)

/-- C9: a non-empty result set with a record lacking the reserved key
makes `display_table` raise: `ValueError` from `headers.remove` when no
record carries the key, `KeyError` from the per-row metric-name lookup
otherwise.  The failure surfaces in the renderer — the client functions
hand the raw `data.result` value over without validating records, see
`client_decode_contract`. -/
theorem displayTable_missing_name_errors (results : List ResultRecord)
    (_hne : results ≠ [])
    (hbad : ∃ r ∈ results, dictGet r.metric "__name__" = none) :
    display_table results = Except.error PyErr.valueError ∨
      display_table results = Except.error (PyErr.keyError "__name__") := by
  by_cases hmem : "__name__" ∈ allLabelKeys results
  · right
    have hh := headersOf_eq results hmem
    have hchoice : ∀ r ∈ results,
        rowOf (specSortedLabelKeys results) r
          = Except.ok ((dictGet r.metric "__name__").getD "" ::
              (specSortedLabelKeys results).map (fun l => (dictGet r.metric l).getD "")
              ++ [r.value.2])
        ∨ rowOf (specSortedLabelKeys results) r = Except.error (PyErr.keyError "__name__") := by
      intro r _
      cases hv : dictGet r.metric "__name__" with
      | some v =>
        left
        simp [rowOf, hv]
      | none =>
        right
        simp [rowOf, hv]
    rcases mapM_ok_or_error _ _ _ results hchoice with hok | herr
    · exfalso
      obtain ⟨r, hr, hnone⟩ := hbad
      obtain ⟨row, hrow⟩ := mapM_ok_forall _ results _ hok r hr
      unfold rowOf at hrow
      rw [hnone] at hrow
      exact Except.noConfusion hrow
    · refine display_table_mk_error hh ?_
      rw [labelCols_eq]
      exact herr
  · left
    have hnotin : ¬ "__name__" ∈ "Metric" :: sortedKeyUnion results := by
      intro hc
      rcases List.mem_cons.mp hc with h1 | h1
      · exact absurd h1 (by decide)
      · exact hmem (mem_sortedKeyUnion.mp h1)
    unfold display_table headersOf
    rw [if_neg hnotin]
    rfl

/-- C9 witness: one record without the reserved key. -/
theorem displayTable_missing_name_errors_witness :
    display_table [⟨[("job", "prometheus")], (JsonV.num 0, "1")⟩]
        = Except.error PyErr.valueError ∨
      display_table [⟨[("job", "prometheus")], (JsonV.num 0, "1")⟩]
        = Except.error (PyErr.keyError "__name__") :=
  displayTable_missing_name_errors _ (List.cons_ne_nil _ _)
    ⟨⟨[("job", "prometheus")], (JsonV.num 0, "1")⟩, List.mem_singleton.mpr rfl, rfl⟩

/-- C10: completion is case-sensitive: a metric name whose codepoint at
some position inside the prefix differs from the prefix — in particular
differing only in letter case there — is never offered at any index. -/
theorem completer_case_sensitive (metrics : List String) (t m : String) (j : Nat)
    (hjt : j < t.data.length) (hjm : j < m.data.length)
    (hdiff : m.data.get ⟨j, hjm⟩ ≠ t.data.get ⟨j, hjt⟩)
    (hcase : Char.toLower (m.data.get ⟨j, hjm⟩) = Char.toLower (t.data.get ⟨j, hjt⟩)) :
    ∀ i, completer metrics t i ≠ Except.ok m := by
  intro i hok
  unfold completer at hok
  cases hg : (completions metrics t)[i]? with
  | none =>
    rw [hg] at hok
    exact Except.noConfusion hok
  | some x =>
    rw [hg] at hok
    have hok2 : Except.ok x = Except.ok m := hok
    have hxm : x = m := Except.ok.inj hok2
    subst hxm
    have hx : x ∈ completions metrics t := List.getElem?_mem hg
    have hsw : pyStartsWith x t = true := (List.mem_filter.mp hx).2
    have hsw2 : t.data.isPrefixOf x.data = true := hsw
    obtain ⟨tail, heq⟩ := List.isPrefixOf_iff_prefix.mp hsw2
    apply hdiff
    have h1 : x.data[j]? = t.data[j]? := by
      rw [← heq]
      exact List.getElem?_append_left hjt
    rw [List.getElem?_eq_getElem hjm, List.getElem?_eq_getElem hjt] at h1
    exact Option.some.inj h1

/-- C10 witness: `"UP"` does not complete to `"up_time"`: the codepoints
differ at position 0 only in letter case. -/
theorem completer_case_sensitive_witness :
    completer ["up_time"] "UP" 0 ≠ Except.ok "up_time" :=
  completer_case_sensitive ["up_time"] "UP" "up_time" 0
    (by decide) (by decide) (by decide) (by decide) 0

end PromCurl
